import Mathlib

/-!
# Link-preview edge function (`netlify/edge-functions/og-image.js`)

A shallow embedding of the edge function that serves social-media crawlers a
pre-rendered preview page for `/post/<id>` links, and of its two helpers
`truncateText` and `escapeHtml`.

* A JavaScript string is the list of its UTF-16 code units (`JSString`), so
  that `length`, `substring` and the per-unit `replace` calls count what the
  program counts.
* The handler is a pure function of the request and of the answer of the
  upstream service; the outbound fetch and the error log are recorded in an
  explicit trace of effects.
* The upstream payload has the documented shape
  `{ title?, description?, image?: { url? }, createdBy?: { name? } }` with
  string leaves.
-/

namespace OgImage

/-! ## Strings -/

/-- A JavaScript string: the list of its UTF-16 code units. -/
abbrev JSString := List Nat

/-- The UTF-16 code units of one Unicode scalar value. -/
def utf16 (c : Char) : List Nat :=
  if c.toNat < 65536 then [c.toNat]
  else [55296 + (c.toNat - 65536) / 1024, 56320 + (c.toNat - 65536) % 1024]

/-- The JavaScript string denoted by a string literal of the source. -/
def lit (s : String) : JSString := s.toList.flatMap utf16

/-- The operator `a || b` where `a` is a possibly missing string and `b` a
string: `undefined`, `null` and the empty string are falsy. -/
def jsOr (a : Option JSString) (b : JSString) : JSString :=
  match a with
  | some (c :: cs) => c :: cs
  | _ => b

/-- The method `text.startsWith(searchString)`. -/
def startsWith (text searchString : JSString) : Bool :=
  searchString.isPrefixOf text

/-- The method `text.includes(searchString)`. -/
def includes : JSString → JSString → Bool
  | [], searchString => searchString.isEmpty
  | c :: cs, searchString => searchString.isPrefixOf (c :: cs) || includes cs searchString

/-- The method `text.replace(pattern, replacement)` with a string pattern: only
the first occurrence of `pattern` is replaced. -/
def replaceFirst : JSString → JSString → JSString → JSString
  | [], pattern, replacement => if pattern.isEmpty then replacement else []
  | c :: cs, pattern, replacement =>
    if pattern.isPrefixOf (c :: cs) then replacement ++ (c :: cs).drop pattern.length
    else c :: replaceFirst cs pattern replacement

/-- The call `text.replace(/u/g, replacement)` for a one-unit pattern `u`:
every occurrence of the unit is replaced. -/
def replaceAllUnit (text : JSString) (unit : Nat) (replacement : JSString) : JSString :=
  text.flatMap (fun c => if c = unit then replacement else [c])

/-- The code units matched by `\s` in a regular expression, which are also the
ones removed by `trim()`: WhiteSpace and LineTerminator of ECMAScript. -/
def isWhiteSpace (c : Nat) : Bool :=
  c == 9 || c == 10 || c == 11 || c == 12 || c == 13 || c == 32 || c == 160 ||
  c == 5760 || (decide (8192 ≤ c) && decide (c ≤ 8202)) || c == 8232 || c == 8233 ||
  c == 8239 || c == 8287 || c == 12288 || c == 65279

/-- A left-to-right scan for `replace(/\s+/g, ' ')`; the flag tells whether the
previous unit belonged to a whitespace run that was already replaced. -/
def collapseAux : Bool → JSString → JSString
  | _, [] => []
  | inRun, c :: cs =>
    if isWhiteSpace c then
      (if inRun then collapseAux true cs else 32 :: collapseAux true cs)
    else c :: collapseAux false cs

/-- The call `text.replace(/\s+/g, ' ')`: every maximal run of whitespace
becomes one space. -/
def collapseWhiteSpace (text : JSString) : JSString := collapseAux false text

/-- The method `text.trim()`. -/
def trim (text : JSString) : JSString :=
  (text.dropWhile isWhiteSpace).rdropWhile isWhiteSpace

/-- Lower-casing of one code unit of a byte string (units 0..255, the range
of an HTTP header value and of the ASCII signatures): `A`..`Z` and the
Latin-1 capitals `U+00C0`..`U+00DE` other than `U+00D7` move up by 32. -/
def toLowerUnit (c : Nat) : Nat :=
  if (65 ≤ c ∧ c ≤ 90) ∨ (192 ≤ c ∧ c ≤ 222 ∧ c ≠ 215) then c + 32 else c

/-- The method `text.toLowerCase()` on a byte string. -/
def toLowerCase (text : JSString) : JSString := text.map toLowerUnit

/-! ## Helpers of the source -/

/-- The helper `truncateText(text, maxLength)`. -/
def truncateText (text : Option JSString) (maxLength : Nat) : JSString :=
  match text with
  | none => []
  | some [] => []
  | some (c :: cs) =>
    let text := trim (collapseWhiteSpace (c :: cs))
    if text.length ≤ maxLength then text
    else text.take (maxLength - 3) ++ lit "..."

/-- The helper `escapeHtml(text)`: five successive global replacements. -/
def escapeHtml (text : JSString) : JSString :=
  if text.isEmpty then []
  else
    replaceAllUnit (replaceAllUnit (replaceAllUnit (replaceAllUnit (replaceAllUnit text
      38 (lit "&amp;")) 60 (lit "&lt;")) 62 (lit "&gt;")) 34 (lit "&quot;")) 39 (lit "&#039;")

/-! ## Crawler classification -/

/-- The array `crawlerPatterns`. -/
def crawlerPatterns : List JSString :=
  [lit "facebookexternalhit", lit "Facebot", lit "WhatsApp", lit "Twitterbot",
   lit "LinkedInBot", lit "Pinterest", lit "Slackbot", lit "TelegramBot",
   lit "Discordbot", lit "Googlebot", lit "bingbot", lit "Embedly",
   lit "Quora Link Preview", lit "Showyoubot", lit "outbrain", lit "vkShare",
   lit "W3C_Validator"]

/-- The constant `isCrawler`, as a function of the `user-agent` header (absent
when the request has none). -/
def isCrawler (header : Option JSString) : Bool :=
  let userAgent := jsOr header []
  crawlerPatterns.any (fun pattern => includes (toLowerCase userAgent) (toLowerCase pattern))

/-! ## Upstream payload and preview -/

/-- The nested `image` object of the payload. -/
structure Image where
  url : Option JSString
deriving DecidableEq, Repr

/-- The nested `createdBy` object of the payload. -/
structure Author where
  name : Option JSString
deriving DecidableEq, Repr

/-- The parsed upstream payload; a missing (or `null`) field is `none`. -/
structure Post where
  title : Option JSString
  description : Option JSString
  image : Option Image
  createdBy : Option Author
deriving DecidableEq, Repr

/-- The five values computed from the payload before rendering, under the names
they have in the source. -/
structure PostPreview where
  title : JSString
  description : JSString
  image : JSString
  postUrl : JSString
  userName : JSString
deriving DecidableEq, Repr

/-- The fallback description sentence. -/
def fallbackDescription : JSString :=
  lit "View this post on DuoCortex - Every Medico\x27s Digital Campus"

/-- The field mapping of the handler (the five `const` declarations). -/
def extract (post : Post) (postId : JSString) : PostPreview where
  title :=
    jsOr (some (jsOr post.title (truncateText post.description 60))) (lit "DuoCortex Post")
  description := truncateText (some (jsOr post.description fallbackDescription)) 160
  image := jsOr (post.image.bind (fun i => i.url)) (lit "https://duocortex.in/assets/img/logo-1.png")
  postUrl := lit "https://duocortex.in/post/" ++ postId
  userName := jsOr (post.createdBy.bind (fun a => a.name)) (lit "DuoCortex User")

/-! ## The HTML document -/

/-- The lines of the template literal `html`, in order. -/
def htmlLines (p : PostPreview) : List JSString :=
  [lit "<!DOCTYPE html>",
   lit "<html lang=\"en\">",
   lit "<head>",
   lit "  <meta charset=\"utf-8\">",
   lit "  <meta name=\"viewport\" content=\"width=device-width, initial-scale=1.0\">",
   lit "",
   lit "  <title>" ++ escapeHtml p.title ++ lit " | DuoCortex</title>",
   lit "  <meta name=\"description\" content=\"" ++ escapeHtml p.description ++ lit "\">",
   lit "",
   lit "  <!-- Open Graph / Facebook / WhatsApp -->",
   lit "  <meta property=\"og:type\" content=\"article\">",
   lit "  <meta property=\"og:site_name\" content=\"DuoCortex\">",
   lit "  <meta property=\"og:title\" content=\"" ++ escapeHtml p.title ++ lit "\">",
   lit "  <meta property=\"og:description\" content=\"" ++ escapeHtml p.description ++ lit "\">",
   lit "  <meta property=\"og:image\" content=\"" ++ escapeHtml p.image ++ lit "\">",
   lit "  <meta property=\"og:image:width\" content=\"1200\">",
   lit "  <meta property=\"og:image:height\" content=\"630\">",
   lit "  <meta property=\"og:url\" content=\"" ++ escapeHtml p.postUrl ++ lit "\">",
   lit "  <meta property=\"article:author\" content=\"" ++ escapeHtml p.userName ++ lit "\">",
   lit "",
   lit "  <!-- Twitter Card -->",
   lit "  <meta name=\"twitter:card\" content=\"summary_large_image\">",
   lit "  <meta name=\"twitter:site\" content=\"@duocortex\">",
   lit "  <meta name=\"twitter:title\" content=\"" ++ escapeHtml p.title ++ lit "\">",
   lit "  <meta name=\"twitter:description\" content=\"" ++ escapeHtml p.description ++ lit "\">",
   lit "  <meta name=\"twitter:image\" content=\"" ++ escapeHtml p.image ++ lit "\">",
   lit "",
   lit "  <!-- Redirect real users to the actual page -->",
   lit "  <meta http-equiv=\"refresh\" content=\"0;url=" ++ escapeHtml p.postUrl ++ lit "\">",
   lit "",
   lit "  <link rel=\"icon\" href=\"https://duocortex.in/assets/img/logo-1.png\" type=\"image/png\">",
   lit "</head>",
   lit "<body>",
   lit "  <h1>" ++ escapeHtml p.title ++ lit "</h1>",
   lit "  <p>" ++ escapeHtml p.description ++ lit "</p>",
   lit "  <p>Posted by " ++ escapeHtml p.userName ++ lit " on DuoCortex</p>",
   lit "  <img src=\"" ++ escapeHtml p.image ++ lit "\" alt=\"Post image\">",
   lit "  <a href=\"" ++ escapeHtml p.postUrl ++ lit "\">View on DuoCortex</a>",
   lit "</body>",
   lit "</html>"]

/-- The template literal `html`: its lines separated by line feeds. -/
def html (p : PostPreview) : JSString :=
  List.intercalate (lit "\n") (htmlLines p)

/-! ## The handler -/

/-- An HTTP response built by the handler. -/
structure Response where
  status : Nat
  headers : List (JSString × JSString)
  body : JSString
deriving DecidableEq, Repr

/-- The constructor call `new Response(body, { headers })`: the status is the
default one, 200. -/
def newResponse (body : JSString) (headers : List (JSString × JSString)) : Response :=
  ⟨200, headers, body⟩

/-- The two ways the handler can end: `context.next()` or a response of its own. -/
inductive Outcome where
  | Delegate
  | Respond (response : Response)
deriving DecidableEq, Repr

/-- What the handler does to the outside world. -/
inductive Effect where
  | fetch (url : JSString)
  | consoleError
deriving DecidableEq, Repr

/-- What the upstream service answers to one fetch: the promise rejects, or a
response arrives with its `ok` flag and with the result of `json()`, `none`
when the body does not parse; a body that parses has the documented shape. -/
inductive FetchResult where
  | rejected
  | response (ok : Bool) (json : Option Post)
deriving DecidableEq, Repr

/-- The part of the request the handler reads: the path of its URL and its
`user-agent` header. -/
structure Request where
  pathname : JSString
  userAgent : Option JSString
deriving DecidableEq, Repr

/-- The constant `postId` for a path that passed the prefix test. -/
def postIdOf (pathname : JSString) : JSString :=
  replaceFirst pathname (lit "/post/") (lit "")

/-- The default export: the outcome of one request and the trace of its
effects, given the answer of the upstream service to each URL. -/
def handler (fetch : JSString → FetchResult) (request : Request) : Outcome × List Effect :=
  let pathname := request.pathname
  if !startsWith pathname (lit "/post/") then (Outcome.Delegate, [])
  else
    let postId := postIdOf pathname
    if postId.isEmpty then (Outcome.Delegate, [])
    else if !isCrawler request.userAgent then (Outcome.Delegate, [])
    else
      let url := lit "https://api.duocortex.com/posts/post/" ++ postId
      match fetch url with
      | FetchResult.rejected => (Outcome.Delegate, [Effect.fetch url, Effect.consoleError])
      | FetchResult.response false _ => (Outcome.Delegate, [Effect.fetch url])
      | FetchResult.response true none =>
        (Outcome.Delegate, [Effect.fetch url, Effect.consoleError])
      | FetchResult.response true (some post) =>
        (Outcome.Respond (newResponse (html (extract post postId))
            [(lit "content-type", lit "text/html;charset=UTF-8"),
             (lit "cache-control", lit "public, max-age=300")]),
          [Effect.fetch url])

/-! ## Predicates and functions used to state the properties -/

/-- What `escapeHtml` writes for one code unit. -/
def escapeUnit (c : Nat) : JSString :=
  if c = 38 then lit "&amp;"
  else if c = 60 then lit "&lt;"
  else if c = 62 then lit "&gt;"
  else if c = 34 then lit "&quot;"
  else if c = 39 then lit "&#039;"
  else [c]

/-- The five entities written by `escapeHtml`. -/
def entities : List JSString :=
  [lit "&amp;", lit "&lt;", lit "&gt;", lit "&quot;", lit "&#039;"]

/-- The code units `<`, `>`, `"` and the apostrophe. -/
def markupUnits : List Nat := [60, 62, 34, 39]

/-- No two neighbouring code units are both spaces. -/
def NoDoubleSpace (s : JSString) : Prop :=
  List.Chain' (fun a b => ¬(a = 32 ∧ b = 32)) s

/-- A checker for `NoDoubleSpace`. -/
def noDoubleSpaceCheck : JSString → Bool
  | a :: b :: t => !(a == 32 && b == 32) && noDoubleSpaceCheck (b :: t)
  | _ => true

instance (s : JSString) : Decidable (NoDoubleSpace s) :=
  decidable_of_iff (noDoubleSpaceCheck s = true) (by
    unfold NoDoubleSpace
    induction s with
    | nil => simp [noDoubleSpaceCheck]
    | cons a t ih =>
      cases t with
      | nil => simp [noDoubleSpaceCheck]
      | cons b t =>
        rw [List.chain'_cons, ← ih]
        simp only [noDoubleSpaceCheck, Bool.and_eq_true, Bool.not_eq_true', Bool.and_eq_false_imp,
          beq_iff_eq, beq_eq_false_iff_ne, ne_eq, not_and])

/-- The only whitespace code units of the string are spaces. -/
def OnlySpaces (s : JSString) : Prop :=
  ∀ c ∈ s, isWhiteSpace c = true → c = 32

instance (s : JSString) : Decidable (OnlySpaces s) :=
  inferInstanceAs (Decidable (∀ c ∈ s, isWhiteSpace c = true → c = 32))

/-- The collapsed and trimmed text that `truncateText` measures. -/
def collapsed (text : JSString) : JSString := trim (collapseWhiteSpace text)

/-- Replacement of runs: a unit satisfying `p` together with all the units
satisfying `p` that follow it (a maximal run) becomes one space, any other unit
is kept. -/
def collapseRunsBy (p : Nat → Bool) : JSString → JSString
  | [] => []
  | c :: cs =>
    if p c then 32 :: collapseRunsBy p (cs.dropWhile p)
    else c :: collapseRunsBy p cs
termination_by s => s.length
decreasing_by
  · simp only [List.length_cons]
    exact Nat.lt_succ_of_le (List.dropWhile_suffix _).length_le
  · simp

/-- The replacement of whitespace runs in the words of the specification:
every maximal run of whitespace is replaced by one space. -/
def collapseRuns (text : JSString) : JSString := collapseRunsBy isWhiteSpace text

/-- The text the description is computed from: `post.description || fallback`. -/
def descriptionSource (post : Post) : JSString :=
  jsOr post.description fallbackDescription

/-- The title in the words of the specification: the response title when
non-empty; else, when the description is non-empty, its collapsed text cut to
60 units with an ellipsis; else the fixed fallback. -/
def titleAsDocumented (post : Post) : JSString :=
  match post.title with
  | some (c :: cs) => c :: cs
  | _ =>
    match post.description with
    | some (d :: ds) =>
      if (collapsed (d :: ds)).length ≤ 60 then collapsed (d :: ds)
      else (collapsed (d :: ds)).take 57 ++ lit "..."
    | _ => lit "DuoCortex Post"

/-- A byte string: every code unit is below 256, as in an HTTP header value. -/
def ByteString (s : JSString) : Prop := ∀ c ∈ s, c < 256

instance (s : JSString) : Decidable (ByteString s) :=
  inferInstanceAs (Decidable (∀ c ∈ s, c < 256))

/-- An upper-case letter of the byte range. -/
def isUpperUnit (c : Nat) : Prop :=
  (65 ≤ c ∧ c ≤ 90) ∨ (192 ≤ c ∧ c ≤ 222 ∧ c ≠ 215)

/-- Two code units that are equal or are the two cases of one letter. -/
def sameLetter (a b : Nat) : Prop :=
  a = b ∨ (isUpperUnit a ∧ b = a + 32) ∨ (isUpperUnit b ∧ a = b + 32)

instance (c : Nat) : Decidable (isUpperUnit c) :=
  inferInstanceAs (Decidable ((65 ≤ c ∧ c ≤ 90) ∨ (192 ≤ c ∧ c ≤ 222 ∧ c ≠ 215)))

instance (a b : Nat) : Decidable (sameLetter a b) :=
  inferInstanceAs
    (Decidable (a = b ∨ (isUpperUnit a ∧ b = a + 32) ∨ (isUpperUnit b ∧ a = b + 32)))

/-- The text contains the signature as a substring, compared case-insensitively. -/
def containsIgnoringCase (text signature : JSString) : Prop :=
  ∃ pre w suf : JSString, text = pre ++ w ++ suf ∧ List.Forall₂ sameLetter w signature

/-- The URL the handler fetches for a post identifier. -/
def apiUrl (postId : JSString) : JSString :=
  lit "https://api.duocortex.com/posts/post/" ++ postId

/-- The URLs fetched in a trace, in order. -/
def fetches (trace : List Effect) : List JSString :=
  trace.filterMap (fun e => match e with
    | Effect.fetch url => some url
    | Effect.consoleError => none)

/-- The response the handler builds around a document. -/
def htmlResponse (body : JSString) : Response :=
  newResponse body
    [(lit "content-type", lit "text/html;charset=UTF-8"),
     (lit "cache-control", lit "public, max-age=300")]

/-- The path is `/post/` followed by a non-empty identifier. -/
def InScopePath (pathname : JSString) : Prop :=
  ∃ postId : JSString, postId ≠ [] ∧ pathname = lit "/post/" ++ postId

/-- A possibly missing string that JavaScript treats as false: missing or empty. -/
def Absent (v : Option JSString) : Prop := v = none ∨ v = some []

instance (v : Option JSString) : Decidable (Absent v) :=
  inferInstanceAs (Decidable (v = none ∨ v = some []))

/-- The nested value `post.image?.url`. -/
def imageUrlOf (post : Post) : Option JSString := post.image.bind (fun i => i.url)

/-- The nested value `post.createdBy?.name`. -/
def authorNameOf (post : Post) : Option JSString := post.createdBy.bind (fun a => a.name)

/-- A left-to-right scan for `text.replaceAll(pattern, replacement)` with a
string pattern: the counter tells how many units of an occurrence that was just
replaced are still to be skipped. -/
def replaceAllAux (pattern replacement : JSString) : Nat → JSString → JSString
  | _, [] => []
  | skip + 1, _ :: cs => replaceAllAux pattern replacement skip cs
  | 0, c :: cs =>
    if pattern.isPrefixOf (c :: cs) then
      replacement ++ replaceAllAux pattern replacement (pattern.length - 1) cs
    else c :: replaceAllAux pattern replacement 0 cs

/-- Replacement of each occurrence of a string by another, from left to right. -/
def replaceAllString (text pattern replacement : JSString) : JSString :=
  replaceAllAux pattern replacement 0 text

/-- The inverse reading of an escaped text, in the words of the specification:
each `&lt;`, `&gt;`, `&quot;` and `&#039;` is replaced by its character, and
then each `&amp;` by `&`. -/
def unescapeHtml (text : JSString) : JSString :=
  replaceAllString (replaceAllString (replaceAllString (replaceAllString (replaceAllString text
    (lit "&lt;") (lit "<")) (lit "&gt;") (lit ">")) (lit "&quot;") (lit "\""))
    (lit "&#039;") (lit "\x27")) (lit "&amp;") (lit "&")

/-- What stands for one code unit after the units listed in `undone` were
restored: the unit itself when listed, its escaped form otherwise. -/
def partlyEscaped (undone : List Nat) (c : Nat) : JSString :=
  if c ∈ undone then [c] else escapeUnit c

/-- A non-empty string all of whose code units are whitespace. -/
def WhitespaceOnly (s : JSString) : Prop :=
  s ≠ [] ∧ ∀ c ∈ s, isWhiteSpace c = true

instance (s : JSString) : Decidable (WhitespaceOnly s) :=
  inferInstanceAs (Decidable (s ≠ [] ∧ ∀ c ∈ s, isWhiteSpace c = true))

/-! # Properties -/

/-! ## Escaping -/

theorem lit_amp : lit "&amp;" = [38, 97, 109, 112, 59] := by decide
theorem lit_lt : lit "&lt;" = [38, 108, 116, 59] := by decide
theorem lit_gt : lit "&gt;" = [38, 103, 116, 59] := by decide
theorem lit_quot : lit "&quot;" = [38, 113, 117, 111, 116, 59] := by decide
theorem lit_apos : lit "&#039;" = [38, 35, 48, 51, 57, 59] := by decide

theorem escapeHtml_eq_flatMap (s : JSString) : escapeHtml s = s.flatMap escapeUnit := by
  cases s with
  | nil => rfl
  | cons a t =>
    simp only [escapeHtml, replaceAllUnit, List.isEmpty_cons, Bool.false_eq_true, if_false,
      List.flatMap_assoc]
    congr 1
    funext c
    simp only [escapeUnit, lit_amp, lit_lt, lit_gt, lit_quot, lit_apos]
    by_cases h1 : c = 38
    · subst h1; simp
    by_cases h2 : c = 60
    · subst h2; simp
    by_cases h3 : c = 62
    · subst h3; simp
    by_cases h4 : c = 34
    · subst h4; simp
    by_cases h5 : c = 39
    · subst h5; simp
    simp [h1, h2, h3, h4, h5]

theorem escapeUnit_cases (c : Nat) :
    escapeUnit c ∈ entities ∨ (escapeUnit c = [c] ∧ c ≠ 38 ∧ c ∉ markupUnits) := by
  unfold escapeUnit entities markupUnits
  by_cases h1 : c = 38
  · simp [h1]
  by_cases h2 : c = 60
  · simp [h2]
  by_cases h3 : c = 62
  · simp [h3]
  by_cases h4 : c = 34
  · simp [h4]
  by_cases h5 : c = 39
  · simp [h5]
  right
  simp [h1, h2, h3, h4, h5]

theorem entity_shape (e : JSString) (he : e ∈ entities) :
    ∃ t, e = 38 :: t ∧ 38 ∉ t ∧ ∀ r ∈ markupUnits, r ∉ e := by
  simp only [entities, lit_amp, lit_lt, lit_gt, lit_quot, lit_apos, List.mem_cons,
    List.mem_singleton, List.not_mem_nil, or_false] at he
  rcases he with h | h | h | h | h <;> subst h <;> exact ⟨_, rfl, by decide, by decide⟩

theorem isWhiteSpace_space : isWhiteSpace 32 = true := by decide

theorem collapseAux_spec (l : JSString) :
    ∀ b : Bool, NoDoubleSpace (collapseAux b l) ∧ OnlySpaces (collapseAux b l) ∧
      (b = true → (collapseAux b l).head? ≠ some 32) := by
  induction l with
  | nil =>
    intro b
    simp [collapseAux, NoDoubleSpace, OnlySpaces]
  | cons c cs ih =>
    intro b
    obtain ⟨t1, t2, t3⟩ := ih true
    obtain ⟨f1, f2, -⟩ := ih false
    by_cases hc : isWhiteSpace c = true
    · cases b with
      | true =>
        simp only [collapseAux, hc, if_true]
        exact ⟨t1, t2, fun _ => t3 rfl⟩
      | false =>
        simp only [collapseAux, hc, if_true, Bool.false_eq_true, if_false]
        refine ⟨?_, ?_, fun h => by simp at h⟩
        · refine List.Chain'.cons' t1 ?_
          intro y hy h
          exact t3 rfl (by rw [hy, h.2])
        · intro x hx hw
          rcases List.mem_cons.1 hx with h | h
          · exact h
          · exact t2 x h hw
    · simp only [collapseAux, hc, Bool.false_eq_true, if_false]
      have hne : c ≠ 32 := fun h => hc (h ▸ isWhiteSpace_space)
      refine ⟨?_, ?_, fun _ h => hne (by simpa using h)⟩
      · refine List.Chain'.cons' f1 ?_
        intro y _ h
        exact hne h.1
      · intro x hx hw
        rcases List.mem_cons.1 hx with h | h
        · exact absurd (h ▸ hw) hc
        · exact f2 x h hw

theorem trim_within (s : JSString) : trim s <:+: s :=
  ((List.rdropWhile_prefix _ _).isInfix).trans (List.dropWhile_suffix _).isInfix

theorem noDoubleSpace_of_within {s t : JSString} (h : NoDoubleSpace t) (hst : s <:+: t) :
    NoDoubleSpace s :=
  List.Chain'.infix h hst

theorem onlySpaces_of_within {s t : JSString} (h : OnlySpaces t) (hst : s <:+: t) :
    OnlySpaces s :=
  fun c hc => h c (hst.subset hc)

theorem lit_dots : lit "..." = [46, 46, 46] := by decide

theorem noDoubleSpace_append_dots {s : JSString} (h : NoDoubleSpace s) :
    NoDoubleSpace (s ++ lit "...") := by
  rw [lit_dots]
  refine List.Chain'.append h (by simp [List.Chain']) ?_
  intro x _ y hy hxy
  simp at hy
  omega

theorem onlySpaces_append_dots {s : JSString} (h : OnlySpaces s) :
    OnlySpaces (s ++ lit "...") := by
  rw [lit_dots]
  intro c hc hw
  rcases List.mem_append.1 hc with h1 | h1
  · exact h c h1 hw
  · simp at h1
    subst h1
    simp [isWhiteSpace] at hw

theorem collapsed_spec (text : JSString) :
    NoDoubleSpace (collapsed text) ∧ OnlySpaces (collapsed text) := by
  obtain ⟨h1, h2, -⟩ := collapseAux_spec text false
  exact ⟨noDoubleSpace_of_within h1 (trim_within _), onlySpaces_of_within h2 (trim_within _)⟩

theorem truncateText_some (t : JSString) (n : Nat) (ht : t ≠ []) :
    truncateText (some t) n =
      if (collapsed t).length ≤ n then collapsed t else (collapsed t).take (n - 3) ++ lit "..." := by
  cases t with
  | nil => exact absurd rfl ht
  | cons c cs => rfl

theorem truncateText_spec (t : JSString) (n : Nat) (hn : 3 ≤ n) :
    (truncateText (some t) n).length ≤ n ∧ NoDoubleSpace (truncateText (some t) n) ∧
      OnlySpaces (truncateText (some t) n) := by
  cases t with
  | nil => simp [truncateText, NoDoubleSpace, OnlySpaces]
  | cons c cs =>
    rw [truncateText_some _ _ (List.cons_ne_nil _ _)]
    obtain ⟨h1, h2⟩ := collapsed_spec (c :: cs)
    split
    · next h => exact ⟨h, h1, h2⟩
    · next h =>
      refine ⟨?_, ?_, ?_⟩
      · simp [lit_dots]; omega
      · exact noDoubleSpace_append_dots (noDoubleSpace_of_within h1 (List.take_prefix _ _).isInfix)
      · exact onlySpaces_append_dots (onlySpaces_of_within h2 (List.take_prefix _ _).isInfix)

theorem collapseAux_true (s : JSString) :
    collapseAux true s = collapseAux false (s.dropWhile isWhiteSpace) := by
  induction s with
  | nil => rfl
  | cons c cs ih =>
    by_cases hc : isWhiteSpace c = true
    · simp [collapseAux, List.dropWhile_cons, hc, ih]
    · simp [collapseAux, List.dropWhile_cons, hc]

theorem collapseAux_eq_collapseRunsBy (s : JSString) :
    collapseAux false s = collapseRunsBy isWhiteSpace s := by
  induction s using collapseRunsBy.induct isWhiteSpace with
  | case1 => rw [collapseRunsBy]; rfl
  | case2 c cs hc ih =>
    rw [collapseRunsBy]
    simp only [collapseAux, hc, if_true, Bool.false_eq_true, if_false]
    rw [collapseAux_true, ih]
  | case3 c cs hc ih =>
    rw [collapseRunsBy]
    simp only [collapseAux, hc, Bool.false_eq_true, if_false]
    rw [ih]

theorem collapseWhiteSpace_eq_collapseRuns (s : JSString) :
    collapseWhiteSpace s = collapseRuns s :=
  collapseAux_eq_collapseRunsBy s

theorem jsOr_some_ne_nil (t b : JSString) (ht : t ≠ []) : jsOr (some t) b = t := by
  cases t with
  | nil => exact absurd rfl ht
  | cons c cs => rfl

theorem jsOr_ne_nil (a : Option JSString) (b : JSString) (hb : b ≠ []) : jsOr a b ≠ [] := by
  unfold jsOr
  split
  · exact List.cons_ne_nil _ _
  · exact hb

theorem fallbackDescription_ne_nil : fallbackDescription ≠ [] := by decide

theorem descriptionSource_ne_nil (post : Post) : descriptionSource post ≠ [] :=
  jsOr_ne_nil _ _ fallbackDescription_ne_nil

set_option maxRecDepth 100000 in
/-- C2. The description of the preview is `truncateText(d, 160)` for `d` the
response description when non-empty and the fallback sentence otherwise. With
`c` the text `d` after every maximal whitespace run became one space and the
ends were trimmed, the description is `c` when `c` has at most 160 code units
and otherwise the first 157 units of `c` followed by `...`, 160 units in all.
It never exceeds 160 units, its only whitespace units are spaces, no two of
them adjacent, and for 200 times `A` it is 157 times `A` followed by `...`. -/
theorem description_truncated (post : Post) (postId : JSString) :
    (∀ t : JSString, t ≠ [] → post.description = some t → descriptionSource post = t) ∧
    (post.description = none ∨ post.description = some [] →
      descriptionSource post = fallbackDescription) ∧
    (extract post postId).description = truncateText (some (descriptionSource post)) 160 ∧
    collapsed (descriptionSource post) = trim (collapseRuns (descriptionSource post)) ∧
    ((collapsed (descriptionSource post)).length ≤ 160 →
      (extract post postId).description = collapsed (descriptionSource post)) ∧
    (160 < (collapsed (descriptionSource post)).length →
      (extract post postId).description =
        (collapsed (descriptionSource post)).take 157 ++ lit "..." ∧
      ((extract post postId).description).length = 160) ∧
    ((extract post postId).description).length ≤ 160 ∧
    OnlySpaces (extract post postId).description ∧
    NoDoubleSpace (extract post postId).description ∧
    (post.description = some (List.replicate 200 65) →
      (extract post postId).description = List.replicate 157 65 ++ lit "...") := by
  have hd : (extract post postId).description = truncateText (some (descriptionSource post)) 160 :=
    rfl
  have ht := truncateText_some (descriptionSource post) 160 (descriptionSource_ne_nil post)
  obtain ⟨s1, s2, s3⟩ := truncateText_spec (descriptionSource post) 160 (by omega)
  refine ⟨?_, ?_, hd, ?_, ?_, ?_, hd ▸ s1, hd ▸ s3, hd ▸ s2, ?_⟩
  · intro t ht' h
    simp only [descriptionSource, h]
    exact jsOr_some_ne_nil t _ ht'
  · rintro (h | h) <;> simp [descriptionSource, h, jsOr]
  · simp only [collapsed, collapseWhiteSpace_eq_collapseRuns]
  · intro h
    rw [hd, ht, if_pos h]
  · intro h
    have h' : ¬ (collapsed (descriptionSource post)).length ≤ 160 := by omega
    rw [hd, ht, if_neg h']
    refine ⟨rfl, ?_⟩
    simp [lit_dots]
    omega
  · intro h
    rw [hd]
    simp only [descriptionSource, h]
    decide

/-! ## Title -/

/-- C3, counterexample. For a payload without title whose description is one
space, the documented title is the (empty) collapsed description, while the
handler falls back to `DuoCortex Post`. -/
theorem title_whitespace_description :
    (extract ⟨none, some (lit " "), none, none⟩ (lit "1")).title = lit "DuoCortex Post" ∧
    titleAsDocumented ⟨none, some (lit " "), none, none⟩ = [] ∧
    (extract ⟨none, some (lit " "), none, none⟩ (lit "1")).title ≠
      titleAsDocumented ⟨none, some (lit " "), none, none⟩ := by
  decide

/-- C3, amended. The title is the response title, unchanged, when it is
non-empty. Otherwise, when the description is non-empty and its collapsed text
`c` is non-empty, the title is `c` when `c` has at most 60 code units (as for
`Short note`) and the first 57 units of `c` followed by `...` otherwise.
Otherwise (description missing, empty or only whitespace) it is
`DuoCortex Post`. -/
theorem title_mapping (post : Post) (postId : JSString) :
    (∀ t : JSString, t ≠ [] → post.title = some t → (extract post postId).title = t) ∧
    (post.title = none ∨ post.title = some [] →
      ∀ d : JSString, d ≠ [] → post.description = some d → collapsed d ≠ [] →
        (extract post postId).title =
          if (collapsed d).length ≤ 60 then collapsed d
          else (collapsed d).take 57 ++ lit "...") ∧
    (post.title = none ∨ post.title = some [] →
      (post.description = none ∨ post.description = some [] ∨
        ∃ d, post.description = some d ∧ collapsed d = []) →
      (extract post postId).title = lit "DuoCortex Post") ∧
    (post.title = none ∨ post.title = some [] →
      post.description = some (lit "Short note") →
      (extract post postId).title = lit "Short note") := by
  have key : ∀ d : JSString, d ≠ [] → (post.title = none ∨ post.title = some []) →
      post.description = some d →
      (extract post postId).title =
        jsOr (some (if (collapsed d).length ≤ 60 then collapsed d
          else (collapsed d).take 57 ++ lit "...")) (lit "DuoCortex Post") := by
    intro d hd ht hdesc
    have : (extract post postId).title =
        jsOr (some (jsOr post.title (truncateText post.description 60))) (lit "DuoCortex Post") :=
      rfl
    rw [this, hdesc, truncateText_some d 60 hd]
    rcases ht with ht | ht <;> rw [ht] <;> rfl
  refine ⟨?_, ?_, ?_, ?_⟩
  · intro t ht h
    simp only [extract, h, jsOr_some_ne_nil t _ ht]
  · intro ht d hd hdesc hc
    rw [key d hd ht hdesc]
    apply jsOr_some_ne_nil
    split
    · exact hc
    · simp [lit_dots]
  · intro ht hdesc
    rcases hdesc with h | h | ⟨d, h, hc⟩
    · rcases ht with ht | ht <;> simp [extract, ht, h, jsOr, truncateText]
    · rcases ht with ht | ht <;> simp [extract, ht, h, jsOr, truncateText]
    · by_cases hd : d = []
      · subst hd
        rcases ht with ht | ht <;> simp [extract, ht, h, jsOr, truncateText]
      · rw [key d hd ht h, hc]
        rfl
  · intro ht hdesc
    rw [key _ (by decide) ht hdesc]
    decide

/-! ## Crawler classification -/

theorem includes_iff (s p : JSString) : includes s p = true ↔ p <:+: s := by
  induction s with
  | nil => cases p <;> simp [includes]
  | cons c cs ih =>
    rw [includes, Bool.or_eq_true, ih, List.infix_cons_iff, List.isPrefixOf_iff_prefix]

theorem toLowerUnit_eq_iff (a b : Nat) : toLowerUnit a = toLowerUnit b ↔ sameLetter a b := by
  unfold toLowerUnit sameLetter isUpperUnit
  constructor
  · intro h
    split at h <;> split at h <;> omega
  · intro h
    split <;> split <;> omega

theorem toLowerCase_eq_iff (s t : JSString) :
    toLowerCase s = toLowerCase t ↔ List.Forall₂ sameLetter s t := by
  unfold toLowerCase
  induction s generalizing t with
  | nil => cases t <;> simp
  | cons a s ih =>
    cases t with
    | nil => simp
    | cons b t => simp [ih, toLowerUnit_eq_iff]

theorem includes_toLowerCase_iff (text signature : JSString) :
    includes (toLowerCase text) (toLowerCase signature) = true ↔
      containsIgnoringCase text signature := by
  rw [includes_iff]
  constructor
  · rintro ⟨s, t, h⟩
    have h' : List.map toLowerUnit text = (s ++ toLowerCase signature) ++ t := h.symm
    obtain ⟨l₁, suf, rfl, h1, -⟩ := List.map_eq_append_iff.1 h'
    obtain ⟨pre, w, rfl, -, h3⟩ := List.map_eq_append_iff.1 h1
    exact ⟨pre, w, suf, rfl, (toLowerCase_eq_iff _ _).1 h3⟩
  · rintro ⟨pre, w, suf, rfl, h⟩
    refine ⟨toLowerCase pre, toLowerCase suf, ?_⟩
    rw [← (toLowerCase_eq_iff _ _).2 h]
    simp [toLowerCase]

theorem jsOr_some_nil (s : JSString) : jsOr (some s) [] = s := by
  cases s <;> rfl

theorem isCrawler_iff (ua : JSString) :
    isCrawler (some ua) = true ↔ ∃ sig ∈ crawlerPatterns, containsIgnoringCase ua sig := by
  simp only [isCrawler, jsOr_some_nil, List.any_eq_true, includes_toLowerCase_iff]

theorem isCrawler_congr (ua ua' : JSString) (h : List.Forall₂ sameLetter ua ua') :
    isCrawler (some ua') = isCrawler (some ua) := by
  simp only [isCrawler, jsOr_some_nil, (toLowerCase_eq_iff _ _).2 h]

/-- C4. A byte-string user-agent is classified as a crawler exactly when it
contains one of the 17 signatures as a substring, compared case-insensitively;
changing the case of any of its letters does not change the classification,
and an absent user-agent is not a crawler. -/
theorem isCrawler_spec (ua : JSString) (_hua : ByteString ua) :
    crawlerPatterns.length = 17 ∧
    (isCrawler (some ua) = true ↔ ∃ sig ∈ crawlerPatterns, containsIgnoringCase ua sig) ∧
    (∀ ua' : JSString, List.Forall₂ sameLetter ua ua' →
      isCrawler (some ua') = isCrawler (some ua)) ∧
    isCrawler none = false ∧ isCrawler (some []) = false :=
  ⟨rfl, isCrawler_iff ua, isCrawler_congr ua, by decide, by decide⟩

/-- C4, witness: a WhatsApp user-agent written in capitals. -/
theorem isCrawler_spec_witness :
    ByteString (lit "WHATSAPP/2.23") ∧ isCrawler (some (lit "WHATSAPP/2.23")) = true ∧
    isCrawler (some (lit "whatsapp/2.23")) = isCrawler (some (lit "WHATSAPP/2.23")) := by
  have hb : ByteString (lit "WHATSAPP/2.23") := by decide
  have h := isCrawler_spec (lit "WHATSAPP/2.23") hb
  exact ⟨hb, by decide, h.2.2.1 _ ((toLowerCase_eq_iff _ _).1 (by decide))⟩

/-! ## The handler -/

theorem replaceFirst_append (pattern rest replacement : JSString) :
    replaceFirst (pattern ++ rest) pattern replacement = replacement ++ rest := by
  cases h : pattern ++ rest with
  | nil =>
    obtain ⟨rfl, rfl⟩ := List.append_eq_nil.1 h
    simp [replaceFirst]
  | cons c cs =>
    have hp : pattern.isPrefixOf (c :: cs) = true := by
      rw [← h, List.isPrefixOf_iff_prefix]
      exact List.prefix_append _ _
    rw [replaceFirst, if_pos hp, ← h, List.drop_left]

theorem postIdOf_append (rest : JSString) : postIdOf (lit "/post/" ++ rest) = rest := by
  unfold postIdOf
  rw [replaceFirst_append]
  rfl

theorem startsWith_iff (text searchString : JSString) :
    startsWith text searchString = true ↔ searchString <+: text := by
  simp [startsWith]

theorem handler_outOfScope (fetch : JSString → FetchResult) (request : Request)
    (h : ¬ InScopePath request.pathname ∨ isCrawler request.userAgent = false) :
    handler fetch request = (Outcome.Delegate, []) := by
  unfold handler
  by_cases hs : startsWith request.pathname (lit "/post/") = true
  · obtain ⟨rest, hrest⟩ := (startsWith_iff _ _).1 hs
    simp only [hs, Bool.not_true, Bool.false_eq_true, if_false, ← hrest, postIdOf_append]
    cases rest with
    | nil => simp
    | cons c cs =>
      rcases h with h | h
      · exact absurd ⟨c :: cs, List.cons_ne_nil _ _, hrest.symm⟩ h
      · simp [h]
  · simp [hs]

theorem handler_inScope (fetch : JSString → FetchResult) (postId : JSString)
    (ua : Option JSString) (hid : postId ≠ []) (hc : isCrawler ua = true) :
    handler fetch ⟨lit "/post/" ++ postId, ua⟩ =
      match fetch (apiUrl postId) with
      | FetchResult.rejected =>
        (Outcome.Delegate, [Effect.fetch (apiUrl postId), Effect.consoleError])
      | FetchResult.response false _ => (Outcome.Delegate, [Effect.fetch (apiUrl postId)])
      | FetchResult.response true none =>
        (Outcome.Delegate, [Effect.fetch (apiUrl postId), Effect.consoleError])
      | FetchResult.response true (some post) =>
        (Outcome.Respond (htmlResponse (html (extract post postId))),
          [Effect.fetch (apiUrl postId)]) := by
  have hs : startsWith (lit "/post/" ++ postId) (lit "/post/") = true :=
    (startsWith_iff _ _).2 (List.prefix_append _ _)
  have he : postId.isEmpty = false := by
    cases postId with
    | nil => exact absurd rfl hid
    | cons c cs => rfl
  unfold handler
  simp only [hs, Bool.not_true, Bool.false_eq_true, if_false, postIdOf_append, he, hc]
  rfl

theorem handler_fetches_inScope (fetch : JSString → FetchResult) (postId : JSString)
    (ua : Option JSString) (hid : postId ≠ []) (hc : isCrawler ua = true) :
    fetches (handler fetch ⟨lit "/post/" ++ postId, ua⟩).2 = [apiUrl postId] := by
  rw [handler_inScope fetch postId ua hid hc]
  split <;> rfl

theorem isCrawler_jsOr (header : Option JSString) :
    isCrawler header = isCrawler (some (jsOr header [])) := by
  simp only [isCrawler, jsOr_some_nil]

theorem inScope_or_not (fetch : JSString → FetchResult) (request : Request) :
    handler fetch request = (Outcome.Delegate, []) ∨
      ∃ postId : JSString, postId ≠ [] ∧ request.pathname = lit "/post/" ++ postId ∧
        isCrawler request.userAgent = true := by
  by_cases h : InScopePath request.pathname
  · by_cases hc : isCrawler request.userAgent = true
    · obtain ⟨postId, h1, h2⟩ := h
      exact Or.inr ⟨postId, h1, h2, hc⟩
    · exact Or.inl (handler_outOfScope fetch request (Or.inr (by simpa using hc)))
  · exact Or.inl (handler_outOfScope fetch request (Or.inl h))

/-- C5. A request whose path does not start with `/post/`, or is exactly
`/post/`, or whose user-agent contains none of the signatures, is delegated
with an empty trace. A fetch happens only for a path `/post/<id>` with a
non-empty identifier and a crawler user-agent, and then the trace holds exactly
one fetch, of `https://api.duocortex.com/posts/post/<id>`. -/
theorem delegate_without_fetch (fetch : JSString → FetchResult) (request : Request)
    (_hua : ByteString (jsOr request.userAgent [])) :
    ((¬ lit "/post/" <+: request.pathname ∨ request.pathname = lit "/post/" ∨
        ∀ sig ∈ crawlerPatterns, ¬ containsIgnoringCase (jsOr request.userAgent []) sig) →
      handler fetch request = (Outcome.Delegate, [])) ∧
    (∀ url : JSString, Effect.fetch url ∈ (handler fetch request).2 →
      ∃ postId : JSString, postId ≠ [] ∧ request.pathname = lit "/post/" ++ postId ∧
        isCrawler request.userAgent = true ∧ url = apiUrl postId) ∧
    (∀ postId : JSString, postId ≠ [] → request.pathname = lit "/post/" ++ postId →
      isCrawler request.userAgent = true →
      fetches (handler fetch request).2 = [apiUrl postId]) := by
  refine ⟨?_, ?_, ?_⟩
  · intro h
    apply handler_outOfScope
    rcases h with h | h | h
    · left
      rintro ⟨postId, -, hp⟩
      exact h (hp ▸ List.prefix_append _ _)
    · left
      rintro ⟨postId, hne, hp⟩
      rw [h] at hp
      exact hne (by simpa using hp.symm)
    · right
      rw [isCrawler_jsOr]
      cases hc : isCrawler (some (jsOr request.userAgent []))
      · rfl
      · obtain ⟨sig, hs, hcont⟩ := (isCrawler_iff _).1 hc
        exact absurd hcont (h sig hs)
  · intro url hurl
    rcases inScope_or_not fetch request with h | ⟨postId, h1, h2, h3⟩
    · rw [h] at hurl
      simp at hurl
    · refine ⟨postId, h1, h2, h3, ?_⟩
      have hf := handler_fetches_inScope fetch postId request.userAgent h1 h3
      have hreq : request = ⟨lit "/post/" ++ postId, request.userAgent⟩ := by
        cases request
        simp only [Request.mk.injEq, and_true]
        exact h2
      rw [← hreq] at hf
      have hm : url ∈ fetches (handler fetch request).2 := by
        unfold fetches
        rw [List.mem_filterMap]
        exact ⟨_, hurl, rfl⟩
      rw [hf] at hm
      simpa using hm
  · intro postId h1 h2 h3
    have hf := handler_fetches_inScope fetch postId request.userAgent h1 h3
    have hreq : request = ⟨lit "/post/" ++ postId, request.userAgent⟩ := by
      cases request
      simp only [Request.mk.injEq, and_true]
      exact h2
    rw [← hreq] at hf
    exact hf

/-- C5, witness: a browser asking for `/post/42` is delegated without a fetch. -/
theorem delegate_without_fetch_witness :
    ByteString (jsOr (some (lit "Mozilla/5.0 Firefox/120.0")) []) ∧
    handler (fun _ => FetchResult.rejected)
      ⟨lit "/post/42", some (lit "Mozilla/5.0 Firefox/120.0")⟩ = (Outcome.Delegate, []) := by
  have hb : ByteString (jsOr (some (lit "Mozilla/5.0 Firefox/120.0")) []) := by decide
  refine ⟨hb, ?_⟩
  refine (delegate_without_fetch (fun _ => FetchResult.rejected)
    ⟨lit "/post/42", some (lit "Mozilla/5.0 Firefox/120.0")⟩ hb).1 (Or.inr (Or.inr ?_))
  intro sig hs hcont
  have hc := (isCrawler_iff _).2 ⟨sig, hs, hcont⟩
  revert hc
  decide

/-- C6. For a crawler request for `/post/<id>`, when the fetch is rejected, or
the response is not ok, or its body does not parse, the outcome is Delegate
(no response of the handler's own), and the trace holds exactly one fetch. -/
theorem delegate_on_upstream_failure (fetch : JSString → FetchResult) (postId : JSString)
    (ua : Option JSString) (hid : postId ≠ []) (hc : isCrawler ua = true)
    (hfail : fetch (apiUrl postId) = FetchResult.rejected ∨
      (∃ json, fetch (apiUrl postId) = FetchResult.response false json) ∨
      fetch (apiUrl postId) = FetchResult.response true none) :
    (handler fetch ⟨lit "/post/" ++ postId, ua⟩).1 = Outcome.Delegate ∧
    (∀ r : Response, (handler fetch ⟨lit "/post/" ++ postId, ua⟩).1 ≠ Outcome.Respond r) ∧
    fetches (handler fetch ⟨lit "/post/" ++ postId, ua⟩).2 = [apiUrl postId] := by
  have hd : (handler fetch ⟨lit "/post/" ++ postId, ua⟩).1 = Outcome.Delegate := by
    rw [handler_inScope fetch postId ua hid hc]
    rcases hfail with h | ⟨json, h⟩ | h <;> rw [h]
  refine ⟨hd, ?_, handler_fetches_inScope fetch postId ua hid hc⟩
  intro r hr
  rw [hd] at hr
  exact Outcome.noConfusion hr

/-- C6, witness: Twitterbot asks for `/post/42` and the upstream answers 404. -/
theorem delegate_on_upstream_failure_witness :
    (handler (fun _ => FetchResult.response false none)
      ⟨lit "/post/" ++ lit "42", some (lit "Twitterbot/1.0")⟩).1 = Outcome.Delegate ∧
    fetches (handler (fun _ => FetchResult.response false none)
      ⟨lit "/post/" ++ lit "42", some (lit "Twitterbot/1.0")⟩).2 =
      [lit "https://api.duocortex.com/posts/post/42"] := by
  have h := delegate_on_upstream_failure (fun _ => FetchResult.response false none) (lit "42")
    (some (lit "Twitterbot/1.0")) (by decide) (by decide) (Or.inr (Or.inl ⟨none, rfl⟩))
  exact ⟨h.1, h.2.2⟩

/-- C7, counterexample. For the path `/post/a%20b` the identifier is `a%20b`,
not the decoded `a b`: the fetch goes to `.../posts/post/a%20b` and the
canonical URL ends in `a%20b`. -/
theorem postId_not_decoded :
    postIdOf (lit "/post/a%20b") = lit "a%20b" ∧
    postIdOf (lit "/post/a%20b") ≠ lit "a b" ∧
    fetches (handler (fun _ => FetchResult.response true (some ⟨none, none, none, none⟩))
      ⟨lit "/post/a%20b", some (lit "WhatsApp/2.0")⟩).2 =
      [lit "https://api.duocortex.com/posts/post/a%20b"] ∧
    (extract ⟨none, none, none, none⟩ (postIdOf (lit "/post/a%20b"))).postUrl =
      lit "https://duocortex.in/post/a%20b" := by
  decide

/-- C7, amended. For every path `/post/` followed by a rest, the identifier is
that rest exactly as it stands in the path (nothing is decoded or validated);
for a non-empty rest and a crawler it is appended as is to the upstream URL and,
on success, to the canonical URL of the rendered preview. -/
theorem postId_is_rest (rest : JSString) :
    postIdOf (lit "/post/" ++ rest) = rest ∧
    (∀ (fetch : JSString → FetchResult) (ua : Option JSString), rest ≠ [] →
      isCrawler ua = true →
      fetches (handler fetch ⟨lit "/post/" ++ rest, ua⟩).2 =
        [lit "https://api.duocortex.com/posts/post/" ++ rest]) ∧
    (∀ (fetch : JSString → FetchResult) (ua : Option JSString) (post : Post), rest ≠ [] →
      isCrawler ua = true →
      fetch (lit "https://api.duocortex.com/posts/post/" ++ rest) =
        FetchResult.response true (some post) →
      (handler fetch ⟨lit "/post/" ++ rest, ua⟩).1 =
        Outcome.Respond (htmlResponse (html (extract post rest)))) ∧
    (∀ post : Post, (extract post rest).postUrl = lit "https://duocortex.in/post/" ++ rest) := by
  refine ⟨postIdOf_append rest, ?_, ?_, fun _ => rfl⟩
  · intro fetch ua hne hc
    exact handler_fetches_inScope fetch rest ua hne hc
  · intro fetch ua post hne hc hf
    rw [handler_inScope fetch rest ua hne hc]
    have hf' : fetch (apiUrl rest) = FetchResult.response true (some post) := hf
    rw [hf']

/-! ## Field mapping -/

theorem jsOr_absent (v : Option JSString) (b : JSString) (h : Absent v) : jsOr v b = b := by
  rcases h with h | h <;> rw [h] <;> rfl

theorem truncateText_absent (v : Option JSString) (n : Nat) (h : Absent v) :
    truncateText v n = [] := by
  rcases h with h | h <;> rw [h] <;> rfl

/-- C8. The image is the nested `image.url` when non-empty and the default logo
otherwise; the author is the nested `createdBy.name` when non-empty and
`DuoCortex User` otherwise; the canonical URL is `https://duocortex.in/post/`
followed by the identifier, whatever the payload. When title, description,
image URL and author name are all absent the preview consists of the fixed
defaults. -/
theorem field_defaults (post : Post) (postId : JSString) :
    (∀ u : JSString, u ≠ [] → imageUrlOf post = some u → (extract post postId).image = u) ∧
    (Absent (imageUrlOf post) →
      (extract post postId).image = lit "https://duocortex.in/assets/img/logo-1.png") ∧
    (∀ n : JSString, n ≠ [] → authorNameOf post = some n →
      (extract post postId).userName = n) ∧
    (Absent (authorNameOf post) → (extract post postId).userName = lit "DuoCortex User") ∧
    (extract post postId).postUrl = lit "https://duocortex.in/post/" ++ postId ∧
    (∀ other : Post, (extract other postId).postUrl = (extract post postId).postUrl) ∧
    (Absent post.title → Absent post.description → Absent (imageUrlOf post) →
      Absent (authorNameOf post) →
      extract post postId =
        ⟨lit "DuoCortex Post",
         lit "View this post on DuoCortex - Every Medico\x27s Digital Campus",
         lit "https://duocortex.in/assets/img/logo-1.png",
         lit "https://duocortex.in/post/" ++ postId,
         lit "DuoCortex User"⟩) := by
  have hi : (extract post postId).image =
      jsOr (imageUrlOf post) (lit "https://duocortex.in/assets/img/logo-1.png") := rfl
  have hu : (extract post postId).userName = jsOr (authorNameOf post) (lit "DuoCortex User") :=
    rfl
  refine ⟨?_, ?_, ?_, ?_, rfl, fun _ => rfl, ?_⟩
  · intro u hne h
    rw [hi, h, jsOr_some_ne_nil u _ hne]
  · intro h
    rw [hi, jsOr_absent _ _ h]
  · intro n hne h
    rw [hu, h, jsOr_some_ne_nil n _ hne]
  · intro h
    rw [hu, jsOr_absent _ _ h]
  · intro h1 h2 h3 h4
    have ht : (extract post postId).title = lit "DuoCortex Post" := by
      have : (extract post postId).title =
          jsOr (some (jsOr post.title (truncateText post.description 60)))
            (lit "DuoCortex Post") := rfl
      rw [this, jsOr_absent _ _ h1, truncateText_absent _ _ h2]
      rfl
    have hd : (extract post postId).description =
        lit "View this post on DuoCortex - Every Medico\x27s Digital Campus" := by
      have : (extract post postId).description =
          truncateText (some (jsOr post.description fallbackDescription)) 160 := rfl
      rw [this, jsOr_absent _ _ h2]
      decide
    have hp : (extract post postId).postUrl = lit "https://duocortex.in/post/" ++ postId := rfl
    rw [← ht, ← hd, ← hi.trans (jsOr_absent _ _ h3), ← hu.trans (jsOr_absent _ _ h4), ← hp]

/-- C9. The handler ends in Delegate or in Respond. It responds exactly when
the path is `/post/` followed by a non-empty identifier, the user-agent is a
crawler and the fetch of that identifier gives an ok response whose body parses
to a payload. Every response has status 200, content type
`text/html;charset=UTF-8`, cache control `public, max-age=300`, and the
rendered document as its body. -/
theorem respond_iff (fetch : JSString → FetchResult) (request : Request) :
    ((handler fetch request).1 = Outcome.Delegate ∨
      ∃ r : Response, (handler fetch request).1 = Outcome.Respond r) ∧
    ((∃ r : Response, (handler fetch request).1 = Outcome.Respond r) ↔
      ∃ postId : JSString, postId ≠ [] ∧ request.pathname = lit "/post/" ++ postId ∧
        isCrawler request.userAgent = true ∧
        ∃ post : Post, fetch (apiUrl postId) = FetchResult.response true (some post)) ∧
    (∀ r : Response, (handler fetch request).1 = Outcome.Respond r →
      r.status = 200 ∧
      r.headers.lookup (lit "content-type") = some (lit "text/html;charset=UTF-8") ∧
      r.headers.lookup (lit "cache-control") = some (lit "public, max-age=300") ∧
      ∃ (post : Post) (postId : JSString), request.pathname = lit "/post/" ++ postId ∧
        fetch (apiUrl postId) = FetchResult.response true (some post) ∧
        r.body = html (extract post postId)) := by
  have key : ∀ r : Response, (handler fetch request).1 = Outcome.Respond r →
      ∃ (post : Post) (postId : JSString), postId ≠ [] ∧
        request.pathname = lit "/post/" ++ postId ∧ isCrawler request.userAgent = true ∧
        fetch (apiUrl postId) = FetchResult.response true (some post) ∧
        r = htmlResponse (html (extract post postId)) := by
    intro r hr
    rcases inScope_or_not fetch request with h | ⟨postId, h1, h2, h3⟩
    · rw [h] at hr
      exact Outcome.noConfusion hr
    · have hreq : request = ⟨lit "/post/" ++ postId, request.userAgent⟩ := by
        cases request
        simp only [Request.mk.injEq, and_true]
        exact h2
      rw [hreq, handler_inScope fetch postId request.userAgent h1 h3] at hr
      split at hr
      · exact Outcome.noConfusion hr
      · exact Outcome.noConfusion hr
      · exact Outcome.noConfusion hr
      · next post hf =>
        exact ⟨post, postId, h1, h2, h3, hf, (Outcome.Respond.inj hr).symm⟩
  refine ⟨?_, ⟨?_, ?_⟩, ?_⟩
  · cases h : (handler fetch request).1 with
    | Delegate => exact Or.inl rfl
    | Respond r => exact Or.inr ⟨r, rfl⟩
  · rintro ⟨r, hr⟩
    obtain ⟨post, postId, h1, h2, h3, h4, -⟩ := key r hr
    exact ⟨postId, h1, h2, h3, post, h4⟩
  · rintro ⟨postId, h1, h2, h3, post, h4⟩
    have hreq : request = ⟨lit "/post/" ++ postId, request.userAgent⟩ := by
      cases request
      simp only [Request.mk.injEq, and_true]
      exact h2
    refine ⟨htmlResponse (html (extract post postId)), ?_⟩
    rw [hreq, handler_inScope fetch postId request.userAgent h1 h3, h4]
  · intro r hr
    obtain ⟨post, postId, -, h2, -, h4, rfl⟩ := key r hr
    refine ⟨rfl, ?_, ?_, post, postId, h2, h4, rfl⟩
    · simp only [htmlResponse, newResponse]
      decide
    · simp only [htmlResponse, newResponse]
      decide

/-! ## The rendered document -/

theorem within_intercalate (sep : JSString) :
    ∀ (ls : List JSString) (l : JSString), l ∈ ls → l <:+: List.intercalate sep ls := by
  intro ls
  induction ls with
  | nil => intro l h; simp at h
  | cons a t ih =>
    intro l h
    cases t with
    | nil =>
      have : l = a := by simpa using h
      subst this
      simp [List.intercalate]
    | cons b t' =>
      have hcons : List.intercalate sep (a :: b :: t') =
          a ++ (sep ++ List.intercalate sep (b :: t')) := by
        simp [List.intercalate, List.intersperse]
      rw [hcons]
      rcases List.mem_cons.1 h with h1 | h1
      · subst h1
        exact (List.prefix_append _ _).isInfix
      · exact (ih l h1).trans
          (((List.suffix_append _ _).trans (List.suffix_append _ _)).isInfix)

theorem static_tag_within (p : PostPreview) (s t : JSString) (hl : s ∈ htmlLines p)
    (hs : s = lit "  " ++ t) : t <:+: html p := by
  have h1 : t <:+: s := hs ▸ (List.suffix_append _ _).isInfix
  exact h1.trans (within_intercalate _ _ _ hl)

theorem dynamic_tag_within (p : PostPreview) (a t e b : JSString)
    (hl : a ++ e ++ b ∈ htmlLines p) (ha : a = lit "  " ++ t) : t ++ e ++ b <:+: html p := by
  refine static_tag_within p (a ++ e ++ b) (t ++ e ++ b) hl ?_
  rw [ha]
  simp only [List.append_assoc]

/-- C10. Every rendered document contains the title tag (escaped title followed
by ` | DuoCortex`), the title, description, image, URL and author tags of the
Open Graph and Twitter sets, the meta description, the zero-delay refresh to
the escaped canonical URL, the heading, description paragraph, author line,
image and link of the body, each with the escaped value, and the fixed tags
for type, site name, image size, card and site handle. -/
theorem html_tags (p : PostPreview) :
    (lit "<title>" ++ escapeHtml p.title ++ lit " | DuoCortex</title>" <:+: html p ∧
     lit "<meta property=\"og:title\" content=\"" ++ escapeHtml p.title ++ lit "\">" <:+: html p ∧
     lit "<meta name=\"twitter:title\" content=\"" ++ escapeHtml p.title ++ lit "\">"
       <:+: html p ∧
     lit "<h1>" ++ escapeHtml p.title ++ lit "</h1>" <:+: html p) ∧
    (lit "<meta name=\"description\" content=\"" ++ escapeHtml p.description ++ lit "\">"
       <:+: html p ∧
     lit "<meta property=\"og:description\" content=\"" ++ escapeHtml p.description ++ lit "\">"
       <:+: html p ∧
     lit "<meta name=\"twitter:description\" content=\"" ++ escapeHtml p.description ++ lit "\">"
       <:+: html p ∧
     lit "<p>" ++ escapeHtml p.description ++ lit "</p>" <:+: html p) ∧
    (lit "<meta property=\"og:image\" content=\"" ++ escapeHtml p.image ++ lit "\">"
       <:+: html p ∧
     lit "<meta name=\"twitter:image\" content=\"" ++ escapeHtml p.image ++ lit "\">"
       <:+: html p ∧
     lit "<img src=\"" ++ escapeHtml p.image ++ lit "\" alt=\"Post image\">" <:+: html p) ∧
    (lit "<meta property=\"article:author\" content=\"" ++ escapeHtml p.userName ++ lit "\">"
       <:+: html p ∧
     lit "<p>Posted by " ++ escapeHtml p.userName ++ lit " on DuoCortex</p>" <:+: html p) ∧
    (lit "<meta property=\"og:url\" content=\"" ++ escapeHtml p.postUrl ++ lit "\">"
       <:+: html p ∧
     lit "<meta http-equiv=\"refresh\" content=\"0;url=" ++ escapeHtml p.postUrl ++ lit "\">"
       <:+: html p ∧
     lit "<a href=\"" ++ escapeHtml p.postUrl ++ lit "\">View on DuoCortex</a>" <:+: html p) ∧
    (lit "<meta property=\"og:type\" content=\"article\">" <:+: html p ∧
     lit "<meta property=\"og:site_name\" content=\"DuoCortex\">" <:+: html p ∧
     lit "<meta property=\"og:image:width\" content=\"1200\">" <:+: html p ∧
     lit "<meta property=\"og:image:height\" content=\"630\">" <:+: html p ∧
     lit "<meta name=\"twitter:card\" content=\"summary_large_image\">" <:+: html p ∧
     lit "<meta name=\"twitter:site\" content=\"@duocortex\">" <:+: html p) := by
  refine ⟨⟨?_, ?_, ?_, ?_⟩, ⟨?_, ?_, ?_, ?_⟩, ⟨?_, ?_, ?_⟩, ⟨?_, ?_⟩, ⟨?_, ?_, ?_⟩,
    ⟨?_, ?_, ?_, ?_, ?_, ?_⟩⟩
  · exact dynamic_tag_within p (lit "  <title>") _ _ _ (by simp [htmlLines]) (by decide)
  · exact dynamic_tag_within p (lit "  <meta property=\"og:title\" content=\"") _ _ _
      (by simp [htmlLines]) (by decide)
  · exact dynamic_tag_within p (lit "  <meta name=\"twitter:title\" content=\"") _ _ _
      (by simp [htmlLines]) (by decide)
  · exact dynamic_tag_within p (lit "  <h1>") _ _ _ (by simp [htmlLines]) (by decide)
  · exact dynamic_tag_within p (lit "  <meta name=\"description\" content=\"") _ _ _
      (by simp [htmlLines]) (by decide)
  · exact dynamic_tag_within p (lit "  <meta property=\"og:description\" content=\"") _ _ _
      (by simp [htmlLines]) (by decide)
  · exact dynamic_tag_within p (lit "  <meta name=\"twitter:description\" content=\"") _ _ _
      (by simp [htmlLines]) (by decide)
  · exact dynamic_tag_within p (lit "  <p>") _ _ _ (by simp [htmlLines]) (by decide)
  · exact dynamic_tag_within p (lit "  <meta property=\"og:image\" content=\"") _ _ _
      (by simp [htmlLines]) (by decide)
  · exact dynamic_tag_within p (lit "  <meta name=\"twitter:image\" content=\"") _ _ _
      (by simp [htmlLines]) (by decide)
  · exact dynamic_tag_within p (lit "  <img src=\"") _ _ _ (by simp [htmlLines]) (by decide)
  · exact dynamic_tag_within p (lit "  <meta property=\"article:author\" content=\"") _ _ _
      (by simp [htmlLines]) (by decide)
  · exact dynamic_tag_within p (lit "  <p>Posted by ") _ _ _ (by simp [htmlLines]) (by decide)
  · exact dynamic_tag_within p (lit "  <meta property=\"og:url\" content=\"") _ _ _
      (by simp [htmlLines]) (by decide)
  · exact dynamic_tag_within p (lit "  <meta http-equiv=\"refresh\" content=\"0;url=") _ _ _
      (by simp [htmlLines]) (by decide)
  · exact dynamic_tag_within p (lit "  <a href=\"") _ _ _ (by simp [htmlLines]) (by decide)
  · exact static_tag_within p (lit "  <meta property=\"og:type\" content=\"article\">") _
      (by simp [htmlLines]) (by decide)
  · exact static_tag_within p (lit "  <meta property=\"og:site_name\" content=\"DuoCortex\">") _
      (by simp [htmlLines]) (by decide)
  · exact static_tag_within p (lit "  <meta property=\"og:image:width\" content=\"1200\">") _
      (by simp [htmlLines]) (by decide)
  · exact static_tag_within p (lit "  <meta property=\"og:image:height\" content=\"630\">") _
      (by simp [htmlLines]) (by decide)
  · exact static_tag_within p (lit "  <meta name=\"twitter:card\" content=\"summary_large_image\">")
      _ (by simp [htmlLines]) (by decide)
  · exact static_tag_within p (lit "  <meta name=\"twitter:site\" content=\"@duocortex\">") _
      (by simp [htmlLines]) (by decide)

/-! ## Inverse of the escaping -/

theorem replaceAllAux_skip (pattern replacement : JSString) (l : JSString) :
    ∀ k : Nat, replaceAllAux pattern replacement k l =
      replaceAllAux pattern replacement 0 (l.drop k) := by
  induction l with
  | nil => intro k; cases k <;> simp [replaceAllAux]
  | cons c cs ih =>
    intro k
    cases k with
    | zero => rfl
    | succ k => simp only [replaceAllAux, List.drop_succ_cons]; exact ih k

theorem replaceAllAux_pattern (pattern replacement rest : JSString) (hp : pattern ≠ []) :
    replaceAllAux pattern replacement 0 (pattern ++ rest) =
      replacement ++ replaceAllAux pattern replacement 0 rest := by
  cases pattern with
  | nil => exact absurd rfl hp
  | cons a p =>
    have h : (a :: p).isPrefixOf (a :: (p ++ rest)) = true := by
      rw [List.isPrefixOf_iff_prefix]
      exact List.prefix_append (a :: p) rest
    rw [List.cons_append, replaceAllAux, if_pos h, replaceAllAux_skip]
    simp

theorem replaceAllAux_other (a : Nat) (p replacement : JSString) (c : Nat) (rest : JSString)
    (hc : c ≠ a) :
    replaceAllAux (a :: p) replacement 0 (c :: rest) =
      c :: replaceAllAux (a :: p) replacement 0 rest := by
  have h : (a :: p).isPrefixOf (c :: rest) = false := by
    simp [List.isPrefixOf, Ne.symm hc]
  rw [replaceAllAux, h]
  simp

theorem replaceAllAux_second (a b : Nat) (p replacement : JSString) (c : Nat) (rest : JSString)
    (hc : c ≠ b) :
    replaceAllAux (a :: b :: p) replacement 0 (a :: c :: rest) =
      a :: replaceAllAux (a :: b :: p) replacement 0 (c :: rest) := by
  have h : (a :: b :: p).isPrefixOf (a :: c :: rest) = false := by
    simp [List.isPrefixOf, Ne.symm hc]
  rw [replaceAllAux, h]
  simp

theorem replaceAllString_flatMap (pattern replacement : JSString) (f g : Nat → JSString)
    (h : ∀ (c : Nat) (rest : JSString), replaceAllAux pattern replacement 0 (f c ++ rest) =
      g c ++ replaceAllAux pattern replacement 0 rest) (s : JSString) :
    replaceAllString (s.flatMap f) pattern replacement = s.flatMap g := by
  unfold replaceAllString
  induction s with
  | nil => rfl
  | cons c cs ih => rw [List.flatMap_cons, List.flatMap_cons, h, ih]

theorem partlyEscaped_nil (c : Nat) : partlyEscaped [] c = escapeUnit c := by
  simp [partlyEscaped]

theorem partlyEscaped_all (c : Nat) : partlyEscaped [60, 62, 34, 39, 38] c = [c] := by
  unfold partlyEscaped escapeUnit
  by_cases h1 : c = 38
  · simp [h1]
  by_cases h2 : c = 60
  · simp [h2]
  by_cases h3 : c = 62
  · simp [h3]
  by_cases h4 : c = 34
  · simp [h4]
  by_cases h5 : c = 39
  · simp [h5]
  simp [h1, h2, h3, h4, h5]

theorem unescape_lt (c : Nat) (rest : JSString) :
    replaceAllAux (lit "&lt;") (lit "<") 0 (partlyEscaped [] c ++ rest) =
      partlyEscaped [60] c ++ replaceAllAux (lit "&lt;") (lit "<") 0 rest := by
  have hr : lit "<" = [60] := by decide
  rw [lit_lt, hr]
  unfold partlyEscaped escapeUnit
  rw [lit_amp, lit_lt, lit_gt, lit_quot, lit_apos]
  by_cases h1 : c = 38
  · subst h1
    simp [replaceAllAux_second, replaceAllAux_other]
  by_cases h2 : c = 60
  · subst h2
    simpa using replaceAllAux_pattern [38, 108, 116, 59] [60] rest (by simp)
  by_cases h3 : c = 62
  · subst h3
    simp [replaceAllAux_second, replaceAllAux_other]
  by_cases h4 : c = 34
  · subst h4
    simp [replaceAllAux_second, replaceAllAux_other]
  by_cases h5 : c = 39
  · subst h5
    simp [replaceAllAux_second, replaceAllAux_other]
  simp [h1, h2, h3, h4, h5, replaceAllAux_other]

theorem unescape_gt (c : Nat) (rest : JSString) :
    replaceAllAux (lit "&gt;") (lit ">") 0 (partlyEscaped [60] c ++ rest) =
      partlyEscaped [60, 62] c ++ replaceAllAux (lit "&gt;") (lit ">") 0 rest := by
  have hr : lit ">" = [62] := by decide
  rw [lit_gt, hr]
  unfold partlyEscaped escapeUnit
  rw [lit_amp, lit_lt, lit_gt, lit_quot, lit_apos]
  by_cases h1 : c = 38
  · subst h1
    simp [replaceAllAux_second, replaceAllAux_other]
  by_cases h2 : c = 60
  · subst h2
    simp [replaceAllAux_second, replaceAllAux_other]
  by_cases h3 : c = 62
  · subst h3
    simpa using replaceAllAux_pattern [38, 103, 116, 59] [62] rest (by simp)
  by_cases h4 : c = 34
  · subst h4
    simp [replaceAllAux_second, replaceAllAux_other]
  by_cases h5 : c = 39
  · subst h5
    simp [replaceAllAux_second, replaceAllAux_other]
  simp [h1, h2, h3, h4, h5, replaceAllAux_other]

theorem unescape_quot (c : Nat) (rest : JSString) :
    replaceAllAux (lit "&quot;") (lit "\"") 0 (partlyEscaped [60, 62] c ++ rest) =
      partlyEscaped [60, 62, 34] c ++ replaceAllAux (lit "&quot;") (lit "\"") 0 rest := by
  have hr : lit "\"" = [34] := by decide
  rw [lit_quot, hr]
  unfold partlyEscaped escapeUnit
  rw [lit_amp, lit_lt, lit_gt, lit_quot, lit_apos]
  by_cases h1 : c = 38
  · subst h1
    simp [replaceAllAux_second, replaceAllAux_other]
  by_cases h2 : c = 60
  · subst h2
    simp [replaceAllAux_second, replaceAllAux_other]
  by_cases h3 : c = 62
  · subst h3
    simp [replaceAllAux_second, replaceAllAux_other]
  by_cases h4 : c = 34
  · subst h4
    simpa using replaceAllAux_pattern [38, 113, 117, 111, 116, 59] [34] rest (by simp)
  by_cases h5 : c = 39
  · subst h5
    simp [replaceAllAux_second, replaceAllAux_other]
  simp [h1, h2, h3, h4, h5, replaceAllAux_other]

theorem unescape_apos (c : Nat) (rest : JSString) :
    replaceAllAux (lit "&#039;") (lit "\x27") 0 (partlyEscaped [60, 62, 34] c ++ rest) =
      partlyEscaped [60, 62, 34, 39] c ++ replaceAllAux (lit "&#039;") (lit "\x27") 0 rest := by
  have hr : lit "\x27" = [39] := by decide
  rw [lit_apos, hr]
  unfold partlyEscaped escapeUnit
  rw [lit_amp, lit_lt, lit_gt, lit_quot, lit_apos]
  by_cases h1 : c = 38
  · subst h1
    simp [replaceAllAux_second, replaceAllAux_other]
  by_cases h2 : c = 60
  · subst h2
    simp [replaceAllAux_second, replaceAllAux_other]
  by_cases h3 : c = 62
  · subst h3
    simp [replaceAllAux_second, replaceAllAux_other]
  by_cases h4 : c = 34
  · subst h4
    simp [replaceAllAux_second, replaceAllAux_other]
  by_cases h5 : c = 39
  · subst h5
    simpa using replaceAllAux_pattern [38, 35, 48, 51, 57, 59] [39] rest (by simp)
  simp [h1, h2, h3, h4, h5, replaceAllAux_other]

theorem unescape_amp (c : Nat) (rest : JSString) :
    replaceAllAux (lit "&amp;") (lit "&") 0 (partlyEscaped [60, 62, 34, 39] c ++ rest) =
      partlyEscaped [60, 62, 34, 39, 38] c ++ replaceAllAux (lit "&amp;") (lit "&") 0 rest := by
  have hr : lit "&" = [38] := by decide
  rw [lit_amp, hr]
  unfold partlyEscaped escapeUnit
  rw [lit_amp, lit_lt, lit_gt, lit_quot, lit_apos]
  by_cases h1 : c = 38
  · subst h1
    simpa using replaceAllAux_pattern [38, 97, 109, 112, 59] [38] rest (by simp)
  by_cases h2 : c = 60
  · subst h2
    simp [replaceAllAux_second, replaceAllAux_other]
  by_cases h3 : c = 62
  · subst h3
    simp [replaceAllAux_second, replaceAllAux_other]
  by_cases h4 : c = 34
  · subst h4
    simp [replaceAllAux_second, replaceAllAux_other]
  by_cases h5 : c = 39
  · subst h5
    simp [replaceAllAux_second, replaceAllAux_other]
  simp [h1, h2, h3, h4, h5, replaceAllAux_other]

theorem flatMap_unit (s : JSString) : s.flatMap (fun c => [c]) = s := by
  induction s with
  | nil => rfl
  | cons c cs ih => rw [List.flatMap_cons, ih]; rfl

theorem unescapeHtml_flatMap (s : JSString) : unescapeHtml (s.flatMap escapeUnit) = s := by
  have h0 : escapeUnit = partlyEscaped [] := funext fun c => (partlyEscaped_nil c).symm
  have h5 : partlyEscaped [60, 62, 34, 39, 38] = fun c => [c] := funext partlyEscaped_all
  unfold unescapeHtml
  rw [h0, replaceAllString_flatMap _ _ _ _ unescape_lt, replaceAllString_flatMap _ _ _ _ unescape_gt,
    replaceAllString_flatMap _ _ _ _ unescape_quot, replaceAllString_flatMap _ _ _ _ unescape_apos,
    replaceAllString_flatMap _ _ _ _ unescape_amp, h5, flatMap_unit]

theorem unescapeHtml_escapeHtml (s : JSString) : unescapeHtml (escapeHtml s) = s := by
  rw [escapeHtml_eq_flatMap, unescapeHtml_flatMap]

/-- C11. Undoing the escaping, by replacing each `&lt;`, `&gt;`, `&quot;` and
`&#039;` with its character and then each `&amp;` with `&`, gives back the
input of `escapeHtml` exactly; hence two different inputs never have the same
escaped text. Each unit is escaped once, on its own, so that an input already
holding `&lt;` becomes `&amp;lt;`. -/
theorem escapeHtml_invertible :
    (∀ s : JSString, unescapeHtml (escapeHtml s) = s) ∧
    (∀ s t : JSString, escapeHtml s = escapeHtml t → s = t) ∧
    (∀ s : JSString, escapeHtml s = s.flatMap escapeUnit) ∧
    escapeHtml (lit "&lt;") = lit "&amp;lt;" ∧
    unescapeHtml (lit "&amp;lt;") = lit "&lt;" := by
  refine ⟨unescapeHtml_escapeHtml, ?_, escapeHtml_eq_flatMap, by decide, by decide⟩
  intro s t h
  rw [← unescapeHtml_escapeHtml s, ← unescapeHtml_escapeHtml t, h]

/-! ## Whitespace-only descriptions -/

theorem collapseAux_whitespace (l : JSString) (h : ∀ c ∈ l, isWhiteSpace c = true) :
    collapseAux true l = [] ∧ (collapseAux false l = [] ∨ collapseAux false l = [32]) := by
  induction l with
  | nil => exact ⟨rfl, Or.inl rfl⟩
  | cons c cs ih =>
    have hc : isWhiteSpace c = true := h c (List.mem_cons_self _ _)
    obtain ⟨h1, -⟩ := ih (fun x hx => h x (List.mem_cons_of_mem _ hx))
    simp [collapseAux, hc, h1]

theorem collapsed_whitespace (l : JSString) (h : ∀ c ∈ l, isWhiteSpace c = true) :
    collapsed l = [] := by
  unfold collapsed collapseWhiteSpace
  rcases (collapseAux_whitespace l h).2 with h1 | h1 <;> rw [h1] <;> decide

theorem mem_collapseAux (x : Nat) (hx : isWhiteSpace x = false) (l : JSString) :
    ∀ b : Bool, x ∈ l → x ∈ collapseAux b l := by
  induction l with
  | nil => intro b h; simp at h
  | cons c cs ih =>
    intro b h
    rcases List.mem_cons.1 h with h1 | h1
    · subst h1
      simp [collapseAux, hx]
    · by_cases hc : isWhiteSpace c = true
      · cases b
        · simp only [collapseAux, hc, if_true, Bool.false_eq_true, if_false]
          exact List.mem_cons_of_mem _ (ih true h1)
        · simp only [collapseAux, hc, if_true]
          exact ih true h1
      · simp only [collapseAux, hc, Bool.false_eq_true, if_false]
        exact List.mem_cons_of_mem _ (ih false h1)

theorem mem_dropWhile (p : Nat → Bool) (x : Nat) (hx : p x = false) (l : JSString) :
    x ∈ l → x ∈ l.dropWhile p := by
  induction l with
  | nil => intro h; simp at h
  | cons c cs ih =>
    intro h
    by_cases hc : p c = true
    · rw [List.dropWhile_cons, if_pos hc]
      rcases List.mem_cons.1 h with h1 | h1
      · subst h1
        rw [hx] at hc
        exact absurd hc (by simp)
      · exact ih h1
    · rw [List.dropWhile_cons, if_neg hc]
      exact h

theorem mem_trim (x : Nat) (hx : isWhiteSpace x = false) (l : JSString) (h : x ∈ l) :
    x ∈ trim l := by
  unfold trim List.rdropWhile
  rw [List.mem_reverse]
  apply mem_dropWhile _ _ hx
  rw [List.mem_reverse]
  exact mem_dropWhile _ _ hx _ h

theorem collapsed_eq_nil_iff (l : JSString) :
    collapsed l = [] ↔ ∀ c ∈ l, isWhiteSpace c = true := by
  constructor
  · intro h c hc
    by_contra hw
    have hw' : isWhiteSpace c = false := by simpa using hw
    have : c ∈ collapsed l := mem_trim c hw' _ (mem_collapseAux c hw' l false hc)
    rw [h] at this
    simp at this
  · exact collapsed_whitespace l

theorem truncateText_eq_nil_iff (d : JSString) (n : Nat) (hd : d ≠ []) :
    truncateText (some d) n = [] ↔ collapsed d = [] := by
  rw [truncateText_some d n hd]
  constructor
  · intro h
    split at h
    · exact h
    · simp [lit_dots] at h
  · intro h
    rw [h]
    simp

/-- C12. When the description of the payload is a non-empty string of
whitespace only, `truncateText` gives the empty string for it, the description
of the preview is empty (the fallback sentence is not used), and an absent
title still becomes `DuoCortex Post`. For every other payload the description
of the preview is non-empty. -/
theorem whitespace_description (post : Post) (postId : JSString) :
    (∀ d : JSString, WhitespaceOnly d → post.description = some d →
      truncateText (some d) 160 = [] ∧ (extract post postId).description = [] ∧
      (extract post postId).description ≠ fallbackDescription ∧
      (Absent post.title → (extract post postId).title = lit "DuoCortex Post")) ∧
    ((¬ ∃ d : JSString, post.description = some d ∧ WhitespaceOnly d) →
      (extract post postId).description ≠ []) := by
  have hdesc : (extract post postId).description =
      truncateText (some (descriptionSource post)) 160 := rfl
  constructor
  · intro d hd h
    have hsrc : descriptionSource post = d := by
      unfold descriptionSource
      rw [h]
      exact jsOr_some_ne_nil d _ hd.1
    have ht : truncateText (some d) 160 = [] :=
      (truncateText_eq_nil_iff d 160 hd.1).2 (collapsed_whitespace d hd.2)
    have he : (extract post postId).description = [] := by rw [hdesc, hsrc, ht]
    refine ⟨ht, he, ?_, ?_⟩
    · rw [he]
      exact Ne.symm fallbackDescription_ne_nil
    · intro hta
      have : (extract post postId).title =
          jsOr (some (jsOr post.title (truncateText post.description 60)))
            (lit "DuoCortex Post") := rfl
      rw [this, jsOr_absent _ _ hta, h,
        (truncateText_eq_nil_iff d 60 hd.1).2 (collapsed_whitespace d hd.2)]
      rfl
  · intro hno he
    rw [hdesc, truncateText_eq_nil_iff _ _ (descriptionSource_ne_nil post),
      collapsed_eq_nil_iff] at he
    by_cases ha : Absent post.description
    · have hsrc : descriptionSource post = fallbackDescription := jsOr_absent _ _ ha
      rw [hsrc] at he
      revert he
      decide
    · cases hd : post.description with
      | none => exact ha (Or.inl hd)
      | some d =>
        have hne : d ≠ [] := fun h0 => ha (Or.inr (by rw [hd, h0]))
        have hsrc : descriptionSource post = d := by
          unfold descriptionSource
          rw [hd]
          exact jsOr_some_ne_nil d _ hne
        rw [hsrc] at he
        exact hno ⟨d, hd, hne, he⟩

/-! ## Non-empty fields -/

theorem escapeUnit_ne_nil (c : Nat) : escapeUnit c ≠ [] := by
  rcases escapeUnit_cases c with h | ⟨h, -, -⟩
  · obtain ⟨t, ht, -, -⟩ := entity_shape _ h
    rw [ht]
    exact List.cons_ne_nil _ _
  · rw [h]
    exact List.cons_ne_nil _ _

theorem escapeHtml_ne_nil (s : JSString) (hs : s ≠ []) : escapeHtml s ≠ [] := by
  rw [escapeHtml_eq_flatMap]
  cases s with
  | nil => exact absurd rfl hs
  | cons c cs =>
    rw [List.flatMap_cons]
    intro h
    exact escapeUnit_ne_nil c (List.append_eq_nil.1 h).1

theorem handler_respond_cases (fetch : JSString → FetchResult) (request : Request)
    (r : Response) (hr : (handler fetch request).1 = Outcome.Respond r) :
    ∃ (post : Post) (postId : JSString), postId ≠ [] ∧
      request.pathname = lit "/post/" ++ postId ∧
      fetch (apiUrl postId) = FetchResult.response true (some post) ∧
      r = htmlResponse (html (extract post postId)) := by
  rcases inScope_or_not fetch request with h | ⟨postId, h1, h2, h3⟩
  · rw [h] at hr
    exact Outcome.noConfusion hr
  · have hreq : request = ⟨lit "/post/" ++ postId, request.userAgent⟩ := by
      cases request
      simp only [Request.mk.injEq, and_true]
      exact h2
    rw [hreq, handler_inScope fetch postId request.userAgent h1 h3] at hr
    split at hr
    · exact Outcome.noConfusion hr
    · exact Outcome.noConfusion hr
    · exact Outcome.noConfusion hr
    · next post hf =>
      exact ⟨post, postId, h1, h2, hf, (Outcome.Respond.inj hr).symm⟩

/-- C13. For every payload and every post identifier the title, image URL,
author name and canonical URL of the preview are non-empty, and so are their
escaped forms; every response of the handler is the document of such a preview,
built for a non-empty identifier. -/
theorem preview_fields_nonempty :
    (∀ (post : Post) (postId : JSString),
      (extract post postId).title ≠ [] ∧ (extract post postId).image ≠ [] ∧
      (extract post postId).userName ≠ [] ∧ (extract post postId).postUrl ≠ [] ∧
      escapeHtml (extract post postId).title ≠ [] ∧
      escapeHtml (extract post postId).image ≠ [] ∧
      escapeHtml (extract post postId).userName ≠ [] ∧
      escapeHtml (extract post postId).postUrl ≠ []) ∧
    (∀ (fetch : JSString → FetchResult) (request : Request) (r : Response),
      (handler fetch request).1 = Outcome.Respond r →
      ∃ (post : Post) (postId : JSString), postId ≠ [] ∧
        r.body = html (extract post postId) ∧
        (extract post postId).title ≠ [] ∧ (extract post postId).image ≠ [] ∧
        (extract post postId).userName ≠ [] ∧ (extract post postId).postUrl ≠ []) := by
  have base : ∀ (post : Post) (postId : JSString),
      (extract post postId).title ≠ [] ∧ (extract post postId).image ≠ [] ∧
      (extract post postId).userName ≠ [] ∧ (extract post postId).postUrl ≠ [] := by
    intro post postId
    refine ⟨jsOr_ne_nil _ _ (by decide), jsOr_ne_nil _ _ (by decide),
      jsOr_ne_nil _ _ (by decide), ?_⟩
    intro h
    have h' : lit "https://duocortex.in/post/" ++ postId = [] := h
    exact absurd (List.append_eq_nil.1 h').1 (by decide)
  constructor
  · intro post postId
    obtain ⟨h1, h2, h3, h4⟩ := base post postId
    exact ⟨h1, h2, h3, h4, escapeHtml_ne_nil _ h1, escapeHtml_ne_nil _ h2,
      escapeHtml_ne_nil _ h3, escapeHtml_ne_nil _ h4⟩
  · intro fetch request r hr
    obtain ⟨post, postId, hne, -, -, rfl⟩ := handler_respond_cases fetch request r hr
    obtain ⟨h1, h2, h3, h4⟩ := base post postId
    exact ⟨post, postId, hne, rfl, h1, h2, h3, h4⟩

end OgImage
